import Mathlib

/-!
Verification of the clapper configuration-resolution layer.

This file shallowly embeds the parts of the clapper repository that the
checked properties are about:

* `src/clapper/config.py` — reference resolution (`_object_name`,
  `_resolve_entry_point_or_modules`) and chained configuration loading
  (`_load_context`, `load`).
* `src/clapper/click.py` — `ResourceOption.consume_value` (five-source
  precedence) and `ResourceOption.type_cast_value` (resource-indirection
  loop).
* `src/clapper/rc.py` — `UserDefaults.__getitem__` / `__setitem__`
  (dotted-path nested store) and the write/read round trip.

Configuration files are arbitrary Python in the source; they are embedded
as sequences of assignments of a small expression language, which is enough
to express the behaviours the properties quantify over (setting variables,
reading variables set by earlier files, arithmetic on them).
-/

namespace Clapper

/-- Python values appearing in configuration namespaces. -/
inductive PyVal where
  | int : Int → PyVal
  | str : String → PyVal
  | bool : Bool → PyVal
  deriving DecidableEq, Repr

/-- A module namespace / dictionary: insertion-ordered association list from
variable names to values (models `mod.__dict__`). -/
abbrev Ctx := List (String × PyVal)

/-- Dictionary lookup (`d.get(k)` / `d[k]`). -/
def ctxGet : Ctx → String → Option PyVal
  | [], _ => none
  | (k, v) :: rest, key => if k = key then some v else ctxGet rest key

/-- Dictionary update (`d[k] = v`): replaces in place if the key exists,
appends otherwise (Python dict insertion-order semantics). -/
def ctxSet : Ctx → String → PyVal → Ctx
  | [], key, v => [(key, v)]
  | (k, w) :: rest, key, v =>
    if k = key then (k, v) :: rest else (k, w) :: ctxSet rest key v

/-- Expressions a configuration file may evaluate: literals, reads of
variables from the accumulated context, and integer addition (enough to
express examples such as `b = a + 2`). -/
inductive Expr where
  | lit : PyVal → Expr
  | var : String → Expr
  | add : Expr → Expr → Expr
  deriving DecidableEq, Repr

/-- Evaluate an expression against a context; `none` models a Python
`NameError`/`TypeError` raised during `exec`. -/
def evalExpr (c : Ctx) : Expr → Option PyVal
  | .lit v => some v
  | .var x => ctxGet c x
  | .add a b =>
    match evalExpr c a, evalExpr c b with
    | some (.int m), some (.int n) => some (.int (m + n))
    | _, _ => none

/-- A configuration file: a sequence of assignments `name = expr`, executed
top to bottom (the embedding of the Python source handed to `exec` by
`_load_context`, config.py lines 23-56). -/
abbrev ConfigFile := List (String × Expr)

/-- Execute a file's statements on a module dictionary, as
`exec(compile(...), mod.__dict__)` does; `none` models an exception raised
by the executed code. -/
def execFile : Ctx → ConfigFile → Option Ctx
  | c, [] => some c
  | c, (x, e) :: rest =>
    match evalExpr c e with
    | some v => execFile (ctxSet c x v) rest
    | none => none

/-- Variables assigned (anywhere) by a configuration file. -/
def assignedVars (f : ConfigFile) : List String := f.map (·.1)

/-- Test for the reserved double-underscore prefix, the embedding of
`k.startswith("__")` at config.py line 263. -/
def isDunder (s : String) : Bool :=
  match s.toList with
  | '_' :: '_' :: _ => true
  | _ => false

/-- Drop `__`-prefixed keys from a context: embeds config.py line 263
(`{k: v for k, v in ctxt.__dict__.items() if not k.startswith("__")}`;
the pops of `__name__` and `__package__` at lines 260-261 are subsumed). -/
def stripDunder (c : Ctx) : Ctx :=
  c.filter (fun kv => ¬ isDunder kv.1)

/-- The loading loop of `load` (config.py lines 255-266): for each file, a
fresh module is seeded with the non-dunder part of the running context, the
file is executed on it, and the result becomes the running context. -/
def loadFold : Ctx → List ConfigFile → Option Ctx
  | ctxt, [] => some ctxt
  | ctxt, f :: fs =>
    match execFile (stripDunder ctxt) f with
    | some c => loadFold c fs
    | none => none

/-- Index of the last occurrence of a character in a character list. -/
def lastIdxOf (c : Char) : List Char → Option Nat
  | [] => none
  | x :: xs =>
    match lastIdxOf c xs with
    | some n => some (n + 1)
    | none => if x = c then some 0 else none

/-- Split a string at the last occurrence of a colon, the embedding of
`path.rsplit(":", 1)` in `_object_name` (config.py line 91). Returns the
part before the colon and, when a colon is present, the part after it. -/
def rsplitColon (s : String) : String × Option String :=
  match lastIdxOf ':' s.toList with
  | none => (s, none)
  | some n =>
    (String.mk (s.toList.take n), some (String.mk (s.toList.drop (n + 1))))

/-- Embedding of `_object_name` (config.py lines 85-92): strip an optional
suffix after the last colon; the attribute name is the suffix when present,
otherwise the caller-supplied common name. -/
def objectNameOf (path : String) (commonName : Option String) :
    String × Option String :=
  match rsplitColon path with
  | (base, none) => (base, commonName)
  | (base, some suffix) => (base, some suffix)

/-- A registered entry point: implementing module and optional attribute
(the `module` and `attr` fields of `importlib.metadata.EntryPoint`). -/
structure EntryPoint where
  module : String
  attr : Option String
  deriving DecidableEq, Repr

/-- The external world `config.py` consults: existing files with their
contents, the entry-point registry (group name to name/entry-point pairs)
and the module-name to file mapping used by `_get_module_filename`. -/
structure Env where
  files : List (String × ConfigFile)
  entryPoints : List (String × List (String × EntryPoint))
  moduleFiles : List (String × String)
  deriving Repr

/-- Association-list lookup used for all of `Env`'s tables. -/
def alistGet {α : Type} : List (String × α) → String → Option α
  | [], _ => none
  | (k, v) :: rest, key => if k = key then some v else alistGet rest key

/-- File-existence test, embedding `pathlib.Path(p).is_file()`. -/
def isFile (env : Env) (p : String) : Bool :=
  (alistGet env.files p).isSome

/-- Contents of an existing file; resolution guarantees the path is present
in `env.files` before this is consulted. -/
def fileContents (env : Env) (p : String) : ConfigFile :=
  (alistGet env.files p).getD []

/-- The entry-point dictionary built at config.py lines 139-144: empty when
no group is given, otherwise the registry entries of that group. -/
def epDictFor (env : Env) (group : Option String) :
    List (String × EntryPoint) :=
  match group with
  | none => []
  | some g => (alistGet env.entryPoints g).getD []

/-- Errors raised by the loading pipeline. -/
inductive LoadError where
  | resolution : String → LoadError
  | importErr : String → List String → LoadError
  | execErr : LoadError
  | typeErr : LoadError
  deriving DecidableEq, Repr

/-- Attribute name chosen in the entry-point branch of
`_resolve_entry_point_or_modules` (config.py line 162):
`entry.attr if entry.attr else common_name` (Python truthiness: an absent
or empty attribute falls back to the common name). -/
def epAttr (e : EntryPoint) (commonName : Option String) : Option String :=
  match e.attr with
  | some a => if a = "" then commonName else some a
  | none => commonName

/-- Resolve one reference (the loop body of `_resolve_entry_point_or_modules`,
config.py lines 150-184) to a (file path, binding module name, attribute
name) triple. -/
def resolveOne (env : Env) (epDict : List (String × EntryPoint))
    (commonName : Option String) (path : String) :
    Except LoadError (String × String × Option String) :=
  let moduleName := "user_config"
  let (resolvedPath, objectName) := objectNameOf path commonName
  if isFile env resolvedPath then
    .ok (resolvedPath, moduleName, objectName)
  else
    match alistGet epDict resolvedPath with
    | some entry =>
      match alistGet env.moduleFiles entry.module with
      | some p =>
        if isFile env p then .ok (p, entry.module, epAttr entry commonName)
        else .error (.resolution path)
      | none => .error (.resolution path)
    | none =>
      match alistGet env.moduleFiles resolvedPath with
      | some p =>
        if isFile env p then .ok (p, moduleName, objectName)
        else .error (.resolution path)
      | none => .error (.resolution path)

/-- Embedding of `_resolve_entry_point_or_modules` (config.py lines 95-186):
resolve every reference, in input order, into three index-aligned lists. -/
def resolveAll (env : Env) (paths : List String) (group : Option String)
    (commonName : Option String) :
    Except LoadError (List String × List String × List (Option String)) :=
  let epDict := epDictFor env group
  match paths with
  | [] => .ok ([], [], [])
  | p :: rest =>
    match resolveOne env epDict commonName p with
    | .error e => .error e
    | .ok (f, m, o) =>
      match resolveAll env rest group commonName with
      | .error e => .error e
      | .ok (fs, ms, os) => .ok (f :: fs, m :: ms, o :: os)

/-- Result of `load`: the final module namespace, or a single attribute
value picked from it. -/
inductive LoadResult where
  | module : Ctx → LoadResult
  | value : PyVal → LoadResult
  deriving DecidableEq, Repr

/-- Embedding of `load` (config.py lines 189-280): resolve all references,
return the initial context when nothing was resolved, otherwise run the
loading loop; when an attribute is requested (a non-empty name, matching
Python truthiness of `if not attribute_name`), look up the last resolved
object name on the final namespace, raising `ImportError` naming all
searched files when it is absent. -/
def load (env : Env) (paths : List String) (context : Ctx)
    (group : Option String) (attributeName : Option String) :
    Except LoadError LoadResult :=
  match resolveAll env paths group attributeName with
  | .error e => .error e
  | .ok (files, _names, objectNames) =>
    if files.isEmpty then .ok (.module context)
    else
      match loadFold context (files.map (fileContents env)) with
      | none => .error .execErr
      | some final =>
        match attributeName with
        | none => .ok (.module final)
        | some a =>
          if a = "" then .ok (.module final)
          else
            match objectNames.getLastD none with
            | some o =>
              match ctxGet final o with
              | some v => .ok (.value v)
              | none => .error (.importErr o files)
            | none =>
              -- source: getattr(mod, None) would raise TypeError; this
              -- branch is unreachable because a truthy attribute_name
              -- makes every resolved object name non-None
              .error .typeErr

/-- The provenance labels used by `consume_value`, from
`click.core.ParameterSource` (only the labels the method mentions). -/
inductive ParameterSource where
  | COMMANDLINE
  | ENVIRONMENT
  | DEFAULT_MAP
  | DEFAULT
  deriving DecidableEq, Repr

/-- Embedding of `ResourceOption.consume_value` (click.py lines 378-432).
Inputs model, in order: the option's declared entry-point group, the
`config_context` attribute of the click context when a `ConfigCommand` put
one there (`none` models `hasattr(ctx, "config_context")` being false), the
command-line option dictionary `opts`, the results of
`self.value_from_envvar(ctx)`, `ctx.lookup_default(self.name)` and
`self.get_default(ctx)`, and the parameter name. The error case embeds the
`TypeError` raised at lines 400-404. -/
def consumeValue (entryPointGroup : Option String) (configContext : Option Ctx)
    (opts : Ctx) (envVal defaultMap staticDefault : Option PyVal)
    (name : String) : Except String (Option PyVal × ParameterSource) :=
  if configContext = none ∧ entryPointGroup = none then
    .error "The ResourceOption class is not meant to be used this way."
  else
    let value := ctxGet opts name
    let source := ParameterSource.COMMANDLINE
    -- if no command-line value, look the name up in the config context
    -- (source is left untouched by the Python code here)
    let value :=
      match value with
      | some v => some v
      | none =>
        match configContext with
        | some c => ctxGet c name
        | none => none
    -- if still none, the environment variable
    let (value, source) :=
      match value with
      | some v => (some v, source)
      | none => (envVal, ParameterSource.ENVIRONMENT)
    -- if still none, the default map
    let (value, source) :=
      match value with
      | some v => (some v, source)
      | none => (defaultMap, ParameterSource.DEFAULT_MAP)
    -- if still none, the static default
    let (value, source) :=
      match value with
      | some v => (some v, source)
      | none => (staticDefault, ParameterSource.DEFAULT)
    .ok (value, source)

/-- First non-null value of a list of candidates, in order. -/
def firstSome : List (Option PyVal) → Option PyVal
  | [] => none
  | none :: rest => firstSome rest
  | some v :: _ => some v

/-- Lookup by parameter name in the chained config context, when such a
context exists (the source of consume_value's second step). -/
def chainedLookup (configContext : Option Ctx) (name : String) :
    Option PyVal :=
  match configContext with
  | some c => ctxGet c name
  | none => none

/-- Whether a value is a Python string (`isinstance(value, str)`). -/
def isStr : PyVal → Bool
  | .str _ => true
  | _ => false

/-- Whether a value is a string contained in the string-exceptions list
(`value in self.string_exceptions`, which can only hold for strings). -/
def strIn (v : PyVal) (exceptions : List String) : Bool :=
  match v with
  | .str s => exceptions.contains s
  | _ => false

/-- Outcome of the resource-indirection loop of
`ResourceOption.type_cast_value`. -/
inductive CastResult where
  | out : PyVal → CastResult
  | err : LoadError → CastResult
  | spin : CastResult
  deriving DecidableEq, Repr

/-- Embedding of the loop in `ResourceOption.type_cast_value` (click.py
lines 455-461): while the value is a string not in the string exceptions,
load it as a single reference with the option's own name as the attribute.
The `Nat` argument is fuel: `.spin` models the Python loop not terminating
(possible on cyclic reference chains). -/
def castLoop (env : Env) (group : String) (name : String)
    (exceptions : List String) : Nat → PyVal → CastResult
  | 0, _ => .spin
  | fuel + 1, v =>
    match v with
    | .str s =>
      if exceptions.contains s then .out (.str s)
      else
        match load env [s] [] (some group) (some name) with
        | .ok (.value w) => castLoop env group name exceptions fuel w
        | .ok (.module _) =>
          -- source: load can only hand a module back here when the
          -- option name is empty, which click never produces
          .err .typeErr
        | .error e => .err e
    | v => .out v

mutual
/-- A TOML value as held by `UserDefaults.data` (rc.py): a typed scalar, an
array, or a nested table (section). -/
inductive Toml where
  | vStr : String → Toml
  | vInt : Int → Toml
  | vBool : Bool → Toml
  | vArr : TList → Toml
  | vTable : TMap → Toml

/-- A list of TOML values (array contents). -/
inductive TList where
  | nil : TList
  | cons : Toml → TList → TList

/-- An insertion-ordered string-keyed dictionary of TOML values (a table,
and in particular the top-level `self.data` dictionary). -/
inductive TMap where
  | nil : TMap
  | cons : String → Toml → TMap → TMap
end

/-- Dictionary membership/lookup on a table (`k in d` / `d[k]`). -/
def tmapGet : TMap → String → Option Toml
  | .nil, _ => none
  | .cons k v rest, key => if k = key then some v else tmapGet rest key

/-- Dictionary update on a table (`d[k] = v`): replaces in place when the
key exists, appends otherwise. -/
def tmapSet : TMap → String → Toml → TMap
  | .nil, key, v => .cons key v .nil
  | .cons k w rest, key, v =>
    if k = key then .cons k v rest else .cons k w (tmapSet rest key v)

/-- Whether a value is a table (`isinstance(base, dict)`). -/
def isTable : Toml → Bool
  | .vTable _ => true
  | _ => false

/-- Splitting on the dot character, with Python `str.split(".")`
semantics (always at least one piece; empty pieces kept). -/
def splitOnDotAux : List Char → List Char → List String
  | [], cur => [String.mk cur.reverse]
  | c :: rest, cur =>
    if c = '.' then String.mk cur.reverse :: splitOnDotAux rest []
    else splitOnDotAux rest (c :: cur)

/-- Embedding of `k.split(".")`. -/
def splitOnDot (s : String) : List String :=
  splitOnDotAux s.toList []

/-- Embedding of `".".join(parts)`. -/
def joinDots : List String → String
  | [] => ""
  | [s] => s
  | s :: rest => s ++ "." ++ joinDots rest

/-- Whether a key contains a dot (`"." in k`). -/
def hasDot (s : String) : Bool :=
  s.toList.contains '.'

/-- The dotted-path walk of `UserDefaults.__setitem__` (rc.py lines
144-157): descend (creating sections on the way, as `setdefault(p, {})`
does) through all segments but the last, failing when an intermediate
segment holds a non-table, and assign at the final segment. The error
carries the joined prefix `parts[:(n + 1)]` reported by the raised
`KeyError`; `acc` accumulates the segments already descended. -/
def setParts (d : TMap) (acc : List String) :
    List String → Toml → Except (List String) TMap
  | [], _ =>
    -- unreachable: str.split always yields at least one piece
    .ok d
  | [last], v => .ok (tmapSet d last v)
  | p :: q :: rest, v =>
    match tmapGet d p with
    | none =>
      match setParts TMap.nil (acc ++ [p]) (q :: rest) v with
      | .ok sub => .ok (tmapSet d p (.vTable sub))
      | .error e => .error e
    | some (.vTable t) =>
      match setParts t (acc ++ [p]) (q :: rest) v with
      | .ok sub => .ok (tmapSet d p (.vTable sub))
      | .error e => .error e
    | some _ => .error (acc ++ [p])

/-- Embedding of `UserDefaults.__setitem__` (rc.py lines 141-160): dotted
keys walk/create nested sections; undotted keys set directly. -/
def setItem (d : TMap) (k : String) (v : Toml) : Except (List String) TMap :=
  if hasDot k then setParts d [] (splitOnDot k) v
  else .ok (tmapSet d k v)

/-- The dotted-lookup loop of `UserDefaults.__getitem__` (rc.py lines
121-136): at each segment, descend when the segment names an entry; after
descending into a table, first try the whole remaining suffix (joined by
dots) as a literal key of that table, then continue segment by segment.
`none` models every way of falling through to the final (failing) default
lookup: the loop running out of parts, a missing segment (`break`), or a
non-table met before the last segment (`break`). A non-table met at the
last segment makes the source test membership on a non-dict, which cannot
happen on calls coming from `__getitem__`; it is also mapped to `none`. -/
def getLoop (base : TMap) : List String → Option Toml
  | [] => none
  | p :: rest =>
    match tmapGet base p with
    | none => none
    | some (.vTable t) =>
      match tmapGet t (joinDots rest) with
      | some r => some r
      | none => getLoop t rest
    | some _ => none

/-- Embedding of `UserDefaults.__getitem__` (rc.py lines 117-139): exact
top-level match first, then the dotted walk, then the default (failing)
top-level lookup. -/
def getItem (d : TMap) (k : String) : Option Toml :=
  match tmapGet d k with
  | some v => some v
  | none =>
    if hasDot k then
      match getLoop d (splitOnDot k) with
      | some v => some v
      | none => tmapGet d k
    else tmapGet d k

/-- Modelled from the spec: tokens of the structured key/value text format
written by `UserDefaults.write` and parsed back by `UserDefaults.read`.
The actual serializer and parser (`tomli_w.dump` / `tomli.load`) are
third-party libraries, not part of this repository; the spec requires "a
structured key/value text format with typed scalars (string, integer,
float, boolean, arrays) and nested sections" that "must round-trip without
semantic loss through read→write". The format is modelled at token level:
typed scalar tokens, array delimiters, table delimiters and keys. -/
inductive Tok where
  | key : String → Tok
  | sStr : String → Tok
  | sInt : Int → Tok
  | sBool : Bool → Tok
  | arrStart : Tok
  | arrEnd : Tok
  | tableStart : Tok
  | tableEnd : Tok
  deriving DecidableEq, Repr

mutual
/-- Modelled from the spec: serialize one TOML value to tokens
(`tomli_w.dump`'s value formatting). -/
def dumpV : Toml → List Tok
  | .vStr s => [.sStr s]
  | .vInt i => [.sInt i]
  | .vBool b => [.sBool b]
  | .vArr l => .arrStart :: (dumpL l ++ [.arrEnd])
  | .vTable m => .tableStart :: (dumpT m ++ [.tableEnd])

/-- Modelled from the spec: serialize an array's elements. -/
def dumpL : TList → List Tok
  | .nil => []
  | .cons v vs => dumpV v ++ dumpL vs

/-- Modelled from the spec: serialize a table's key/value pairs in
insertion order. -/
def dumpT : TMap → List Tok
  | .nil => []
  | .cons k v m => .key k :: (dumpV v ++ dumpT m)
end

mutual
/-- Modelled from the spec: parse one value from a token stream
(`tomli.load`'s value parsing), with fuel to keep the mutual descent
structurally terminating. -/
def parseV : Nat → List Tok → Option (Toml × List Tok)
  | 0, _ => none
  | _ + 1, .sStr s :: r => some (.vStr s, r)
  | _ + 1, .sInt i :: r => some (.vInt i, r)
  | _ + 1, .sBool b :: r => some (.vBool b, r)
  | fuel + 1, .arrStart :: r =>
    match parseL fuel r with
    | some (l, r') => some (.vArr l, r')
    | none => none
  | fuel + 1, .tableStart :: r =>
    match parseT fuel r with
    | some (m, r') => some (.vTable m, r')
    | none => none
  | _ + 1, _ => none

/-- Modelled from the spec: parse array elements up to the closing array
delimiter. -/
def parseL : Nat → List Tok → Option (TList × List Tok)
  | 0, _ => none
  | _ + 1, .arrEnd :: r => some (.nil, r)
  | fuel + 1, toks =>
    match parseV fuel toks with
    | some (v, r) =>
      match parseL fuel r with
      | some (l, r') => some (.cons v l, r')
      | none => none
    | none => none

/-- Modelled from the spec: parse table entries up to the closing table
delimiter. -/
def parseT : Nat → List Tok → Option (TMap × List Tok)
  | 0, _ => none
  | _ + 1, .tableEnd :: r => some (.nil, r)
  | fuel + 1, .key k :: r =>
    match parseV fuel r with
    | some (v, r') =>
      match parseT fuel r' with
      | some (m, r'') => some (.cons k v m, r'')
      | none => none
    | none => none
  | _ + 1, _ => none
end

/-- Modelled from the spec: parse the top-level document, a sequence of
key/value pairs ending at the end of the stream. -/
def parseTop : Nat → List Tok → Option TMap
  | _, [] => some .nil
  | 0, _ => none
  | fuel + 1, .key k :: r =>
    match parseV fuel r with
    | some (v, r') =>
      match parseTop fuel r' with
      | some m => some (.cons k v m)
      | none => none
    | none => none
  | _ + 1, _ => none

/-- Modelled from the spec: `UserDefaults.write` serializes the whole
in-memory tree in one pass. -/
def writeStore (d : TMap) : List Tok :=
  dumpT d

/-- Modelled from the spec: `UserDefaults.read` parses the backing file's
content, replacing the in-memory tree; a stream the parser cannot consume
entirely is a parse error. -/
def readStore (toks : List Tok) : Option TMap :=
  parseTop (toks.length + 1) toks

/-- Observation helper for stating properties: resolve a non-empty dotted
path against a table, descending through sections; the value (of any kind)
reached at the last segment, or `none` when the path does not lead through
sections to an entry. -/
def lookupPath : TMap → List String → Option Toml
  | _, [] => none
  | m, [p] => tmapGet m p
  | m, p :: q :: rest =>
    match tmapGet m p with
    | some (.vTable t) => lookupPath t (q :: rest)
    | _ => none

/-! Concrete fixtures used by counterexamples and witnesses. -/

/-- A configuration file defining `a = 1`. -/
def fileDefA : ConfigFile := [("a", .lit (.int 1))]

/-- A configuration file defining `b = a + 2` from the chained context. -/
def fileUseA : ConfigFile := [("b", .add (.var "a") (.lit (.int 2)))]

/-- An environment with two plain config files, the second reading a
variable set by the first. -/
def envAB : Env := ⟨[("f1", fileDefA), ("f2", fileUseA)], [], []⟩

/-- A configuration file defining the dunder-prefixed variable `__a = 1`. -/
def fileDunder : ConfigFile := [("__a", .lit (.int 1))]

/-- A configuration file defining `b = 2` only. -/
def fileDefB : ConfigFile := [("b", .lit (.int 2))]

/-- An environment where the first file sets a dunder-prefixed variable and
the second file does not touch it. -/
def envDunder : Env := ⟨[("f1", fileDunder), ("f2", fileDefB)], [], []⟩

/-- An environment with a two-step resource indirection chain: entry point
`name-x` loads a module whose attribute `p` is the string `"name-y"`, and
`name-y` resolves to the integer `7`. -/
def envChain : Env :=
  ⟨[("fx", [("p", .lit (.str "name-y"))]), ("fy", [("p", .lit (.int 7))])],
   [("G", [("name-x", ⟨"mx", none⟩), ("name-y", ⟨"my", none⟩)])],
   [("mx", "fx"), ("my", "fy")]⟩

/-- An environment with a single file defining `x = 4`, for attribute
lookup. -/
def envAttr : Env := ⟨[("f", [("x", .lit (.int 4))])], [], []⟩

/-- An environment whose registry entry `name-x` carries the registered
attribute `regattr`. -/
def envEp : Env :=
  ⟨[("fx", [("q", .lit (.int 9))])],
   [("G", [("name-x", ⟨"mx", some "regattr"⟩)])],
   [("mx", "fx")]⟩

/-- The nested tree produced by setting `a.b.c` to `5` in an empty store. -/
def sectionTree : TMap :=
  .cons "a" (.vTable (.cons "b" (.vTable (.cons "c" (.vInt 5) .nil)) .nil)) .nil

/-- A store holding the literal dotted key `a.b` at top level alongside a
nested section `a` with key `b`. -/
def shadowTree : TMap :=
  .cons "a.b" (.vInt 1) (.cons "a" (.vTable (.cons "b" (.vInt 2) .nil)) .nil)

/-! Helper lemmas. -/

/-- Updating one key leaves lookups of other keys unchanged. -/
theorem ctxGet_ctxSet_ne (c : Ctx) (k : String) (w : PyVal) (v : String)
    (h : k ≠ v) : ctxGet (ctxSet c k w) v = ctxGet c v := by
  induction c with
  | nil => simp [ctxSet, ctxGet, h]
  | cons kv rest ih =>
    obtain ⟨k', w'⟩ := kv
    by_cases hk : k' = k
    · subst hk
      simp [ctxSet, ctxGet, h]
    · simp [ctxSet, ctxGet, hk, ih]

/-- Executing a file leaves variables it never assigns unchanged. -/
theorem execFile_preserves (f : ConfigFile) (c c' : Ctx) (v : String)
    (h : execFile c f = some c') (hv : v ∉ assignedVars f) :
    ctxGet c' v = ctxGet c v := by
  induction f generalizing c with
  | nil =>
    simp only [execFile, Option.some.injEq] at h
    subst h
    rfl
  | cons st rest ih =>
    obtain ⟨x, e⟩ := st
    simp only [assignedVars, List.map_cons, List.mem_cons] at hv
    push_neg at hv
    simp only [execFile] at h
    cases he : evalExpr c e with
    | none => rw [he] at h; exact absurd h (by simp)
    | some w =>
      rw [he] at h
      have := ih (ctxSet c x w) h (by
        simpa [assignedVars] using hv.2)
      rw [this, ctxGet_ctxSet_ne c x w v (fun hkv => hv.1 hkv.symm)]

/-- The dunder filter does not affect lookups of non-dunder names. -/
theorem stripDunder_ctxGet (c : Ctx) (v : String) (hv : isDunder v = false) :
    ctxGet (stripDunder c) v = ctxGet c v := by
  induction c with
  | nil => rfl
  | cons kv rest ih =>
    obtain ⟨k, w⟩ := kv
    by_cases hd : isDunder k = true
    · have hkv : k ≠ v := by
        intro h
        rw [h, hv] at hd
        exact Bool.false_ne_true hd
      simpa [stripDunder, List.filter_cons, hd, ctxGet, hkv] using ih
    · by_cases hk : k = v
      · subst hk
        simp [stripDunder, List.filter_cons, hd, ctxGet]
      · simpa [stripDunder, List.filter_cons, hd, ctxGet, hk] using ih

/-- The loading loop leaves a non-dunder variable untouched when no file in
the chain assigns it. -/
theorem loadFold_preserves (fs : List ConfigFile) (c final : Ctx) (v : String)
    (x : PyVal) (h : loadFold c fs = some final) (hnd : isDunder v = false)
    (hno : ∀ f ∈ fs, v ∉ assignedVars f) (hv : ctxGet c v = some x) :
    ctxGet final v = some x := by
  induction fs generalizing c with
  | nil =>
    simp only [loadFold, Option.some.injEq] at h
    subst h
    exact hv
  | cons f rest ih =>
    simp only [loadFold] at h
    cases he : execFile (stripDunder c) f with
    | none => rw [he] at h; exact absurd h (by simp)
    | some c1 =>
      rw [he] at h
      refine ih c1 h (fun g hg => hno g (List.mem_cons_of_mem f hg)) ?_
      rw [execFile_preserves f _ c1 v he (hno f (List.mem_cons_self f rest)),
        stripDunder_ctxGet c v hnd]
      exact hv

/-- The loading loop splits over list append. -/
theorem loadFold_append (as bs : List ConfigFile) (c : Ctx) :
    loadFold c (as ++ bs) =
      match loadFold c as with
      | some m => loadFold m bs
      | none => none := by
  induction as generalizing c with
  | nil => rfl
  | cons f rest ih =>
    simp only [List.cons_append, loadFold]
    cases execFile (stripDunder c) f with
    | none => rfl
    | some c1 => exact ih c1

/-- C1 (counterexample): the claim fails as stated. Loading a file that
sets the variable `__a` to `1` followed by a file that only assigns `b`
yields a final namespace in which `__a` is absent, although `__a` was set
by file 0 and overwritten by no later file: the dunder filter applied
between files drops it. -/
theorem load_dunder_dropped :
    load envDunder ["f1", "f2"] [] none none
      = .ok (.module [("b", .int 2)]) ∧
    execFile (stripDunder []) (fileContents envDunder "f1")
      = some [("__a", .int 1)] ∧
    assignedVars (fileContents envDunder "f2") = ["b"] ∧
    ctxGet [("b", PyVal.int 2)] "__a" = none :=
  ⟨rfl, rfl, rfl, rfl⟩

/-- C1 (amended): load evaluates the resolved files in strict left-to-right
input order, and every variable whose name does not start with the reserved
`__` prefix that is set by file i (visible in the running context after
file i) and assigned by no later file is present with that value in the
returned final namespace; variables starting with `__` are dropped when the
context is propagated between files. -/
theorem load_chained_visibility (env : Env) (paths : List String) (ctx0 : Ctx)
    (group attr : Option String) (files names : List String)
    (objs : List (Option String)) (final ci : Ctx) (i : Nat)
    (v : String) (x : PyVal)
    (hres : resolveAll env paths group attr = .ok (files, names, objs))
    (hload : load env paths ctx0 group attr = .ok (.module final))
    (hi : loadFold ctx0 ((files.take (i + 1)).map (fileContents env))
      = some ci)
    (hv : ctxGet ci v = some x)
    (hnd : isDunder v = false)
    (hlater : ∀ f ∈ (files.drop (i + 1)).map (fileContents env),
      v ∉ assignedVars f) :
    ctxGet final v = some x := by
  unfold load at hload
  rw [hres] at hload
  dsimp only at hload
  by_cases hfe : files.isEmpty
  · -- no files: load returns the initial context, and the prefix chain is
    -- empty as well
    rw [if_pos hfe] at hload
    have hfiles : files = [] := List.isEmpty_iff.mp hfe
    subst hfiles
    simp only [List.take_nil, List.map_nil, loadFold, Option.some.injEq] at hi
    subst hi
    have : ctx0 = final := by
      injection hload with h1
      injection h1
    rw [← this]
    exact hv
  · rw [if_neg hfe] at hload
    cases hfold : loadFold ctx0 (files.map (fileContents env)) with
    | none => rw [hfold] at hload; exact absurd hload (by simp)
    | some full =>
      rw [hfold] at hload
      dsimp only at hload
      have hfin : full = final := by
        cases attr with
        | none =>
          injection hload with h1
          injection h1
        | some a =>
          dsimp only at hload
          by_cases ha : a = ""
          · rw [if_pos ha] at hload
            injection hload with h1
            injection h1
          · rw [if_neg ha] at hload
            cases ho : objs.getLastD none with
            | some o =>
              rw [ho] at hload
              dsimp only at hload
              cases hg : ctxGet full o with
              | some w => rw [hg] at hload; exact absurd hload (by simp)
              | none => rw [hg] at hload; exact absurd hload (by simp)
            | none => rw [ho] at hload; exact absurd hload (by simp)
      subst hfin
      have hsplit : files.map (fileContents env) =
          (files.take (i + 1)).map (fileContents env) ++
          (files.drop (i + 1)).map (fileContents env) := by
        rw [← List.map_append, List.take_append_drop]
      rw [hsplit, loadFold_append, hi] at hfold
      exact loadFold_preserves _ ci _ v x hfold hnd hlater hv

/-- C1 (witness): in the two-file environment where file 1 defines `a = 1`
and file 2 defines `b = a + 2`, the final namespace holds `a = 1` (and is
the namespace with `a = 1, b = 3`). -/
theorem load_chained_visibility_witness :
    ctxGet [("a", PyVal.int 1), ("b", PyVal.int 3)] "a" = some (.int 1) :=
  load_chained_visibility envAB ["f1", "f2"] [] none none
    ["f1", "f2"] ["user_config", "user_config"] [none, none]
    [("a", .int 1), ("b", .int 3)] [("a", .int 1)] 0 "a" (.int 1)
    rfl rfl rfl rfl rfl (by decide)

/-- C2: consume_value resolves the value by trying, in strict order, the
explicit command-line value, the lookup by parameter name in the chained
config context (when such a context exists), the environment variable, the
default map, and the static default, returning the first non-null value
found. -/
theorem consumeValue_precedence (epg : Option String) (cctx : Option Ctx)
    (opts : Ctx) (envVal defMap dflt : Option PyVal) (name : String)
    (h : ¬(cctx = none ∧ epg = none)) :
    ∃ src, consumeValue epg cctx opts envVal defMap dflt name =
      .ok (firstSome [ctxGet opts name, chainedLookup cctx name,
        envVal, defMap, dflt], src) := by
  unfold consumeValue
  rw [if_neg h]
  cases ctxGet opts name with
  | some v => exact ⟨_, rfl⟩
  | none =>
    cases cctx with
    | none =>
      dsimp only [chainedLookup]
      cases envVal with
      | some e => exact ⟨_, rfl⟩
      | none =>
        cases defMap with
        | some m => exact ⟨_, rfl⟩
        | none =>
          cases dflt with
          | some d => exact ⟨_, rfl⟩
          | none => exact ⟨_, rfl⟩
    | some c =>
      dsimp only [chainedLookup]
      cases ctxGet c name with
      | some w => exact ⟨_, rfl⟩
      | none =>
        cases envVal with
        | some e => exact ⟨_, rfl⟩
        | none =>
          cases defMap with
          | some m => exact ⟨_, rfl⟩
          | none =>
            cases dflt with
            | some d => exact ⟨_, rfl⟩
            | none => exact ⟨_, rfl⟩

/-- C2 (witness): with no command-line value, a chained-context value `1`,
an environment value `3`, all present, the chained-context value wins. -/
theorem consumeValue_precedence_witness :
    ∃ src, consumeValue (some "G") (some [("a", PyVal.int 1)]) []
      (some (.int 3)) (some (.int 5)) (some (.int 42)) "a"
      = .ok (some (.int 1), src) := by
  have h := consumeValue_precedence (some "G") (some [("a", PyVal.int 1)]) []
    (some (.int 3)) (some (.int 5)) (some (.int 42)) "a" (by simp)
  simpa [firstSome, ctxGet] using h

/-- C5 (counterexample): the claim fails as stated. With no command-line
value and the chained context supplying the value `1`, consume_value tags
the result with COMMANDLINE — the label of the command-line source — not
with a label identifying the chained context (the code never updates the
source variable on the chained-context step). -/
theorem consumeValue_chained_tag_commandline :
    ctxGet ([] : Ctx) "a" = none ∧
    chainedLookup (some [("a", PyVal.int 1)]) "a" = some (.int 1) ∧
    consumeValue none (some [("a", PyVal.int 1)]) [] none none none "a"
      = .ok (some (.int 1), .COMMANDLINE) :=
  ⟨rfl, rfl, rfl⟩

/-- C5 (amended): consume_value tags environment values with ENVIRONMENT,
default-map values with DEFAULT_MAP and static defaults with DEFAULT, but a
value obtained from the chained-context lookup keeps the COMMANDLINE tag,
the same label used for explicit command-line values. -/
theorem consumeValue_source_tags (epg : Option String) (cctx : Option Ctx)
    (opts : Ctx) (envVal defMap dflt : Option PyVal) (name : String)
    (h : ¬(cctx = none ∧ epg = none)) :
    (∀ v, ctxGet opts name = some v →
      consumeValue epg cctx opts envVal defMap dflt name
        = .ok (some v, .COMMANDLINE)) ∧
    (∀ v, ctxGet opts name = none → chainedLookup cctx name = some v →
      consumeValue epg cctx opts envVal defMap dflt name
        = .ok (some v, .COMMANDLINE)) ∧
    (∀ v, ctxGet opts name = none → chainedLookup cctx name = none →
      envVal = some v →
      consumeValue epg cctx opts envVal defMap dflt name
        = .ok (some v, .ENVIRONMENT)) ∧
    (∀ v, ctxGet opts name = none → chainedLookup cctx name = none →
      envVal = none → defMap = some v →
      consumeValue epg cctx opts envVal defMap dflt name
        = .ok (some v, .DEFAULT_MAP)) ∧
    (ctxGet opts name = none → chainedLookup cctx name = none →
      envVal = none → defMap = none →
      consumeValue epg cctx opts envVal defMap dflt name
        = .ok (dflt, .DEFAULT)) := by
  refine ⟨fun v hv => ?_, fun v h1 h2 => ?_, fun v h1 h2 h3 => ?_,
    fun v h1 h2 h3 h4 => ?_, fun h1 h2 h3 h4 => ?_⟩ <;>
    unfold consumeValue <;> rw [if_neg h] <;>
    cases cctx <;>
    simp_all [chainedLookup]

/-- C5 (witness): applying the amended theorem at concrete inputs, the
environment-supplied value is tagged ENVIRONMENT. -/
theorem consumeValue_source_tags_witness :
    consumeValue (some "G") none [] (some (.int 3)) none (some (.int 42)) "a"
      = .ok (some (.int 3), .ENVIRONMENT) :=
  (consumeValue_source_tags (some "G") none [] (some (.int 3)) none
    (some (.int 42)) "a" (by simp)).2.2.1 (.int 3) rfl rfl rfl

/-- C3: the type_cast_value loop keeps loading string values as single
references with the option's own name as the attribute, and stops exactly
when the value is no longer a string (or is a listed string exception):
whatever it hands back is a non-string or an excepted string. In
particular, a two-step indirection chain (entry point name-x, whose
attribute is the string "name-y", whose attribute is the integer 7)
resolves to 7. -/
theorem typeCast_resolution_loop :
    (∀ (env : Env) (g nm : String) (exc : List String) (fuel : Nat)
      (v w : PyVal), castLoop env g nm exc fuel v = .out w →
      isStr w = false ∨ strIn w exc = true) ∧
    castLoop envChain "G" "p" [] 3 (.str "name-x") = .out (.int 7) := by
  refine ⟨fun env g nm exc fuel => ?_, rfl⟩
  induction fuel with
  | zero => intro v w h; exact absurd h (by simp [castLoop])
  | succ fuel ih =>
    intro v w h
    cases v with
    | str s =>
      simp only [castLoop] at h
      by_cases hs : exc.contains s
      · rw [if_pos hs] at h
        injection h with h1
        subst h1
        exact Or.inr (by simpa [strIn] using hs)
      · rw [if_neg hs] at h
        cases hl : load env [s] [] (some g) (some nm) with
        | error e => rw [hl] at h; exact absurd h (by simp)
        | ok r =>
          rw [hl] at h
          cases r with
          | module m => exact absurd h (by simp)
          | value w' => exact ih w' w h
    | int i =>
      simp only [castLoop] at h
      injection h with h1
      subst h1
      exact Or.inl rfl
    | bool b =>
      simp only [castLoop] at h
      injection h with h1
      subst h1
      exact Or.inl rfl

/-- C3 (witness): the two-step chain's result, the integer 7, is indeed not
a string. -/
theorem typeCast_resolution_loop_witness :
    isStr (.int 7) = false ∨ strIn (.int 7) [] = true :=
  typeCast_resolution_loop.1 envChain "G" "p" [] 3 (.str "name-x") (.int 7)
    typeCast_resolution_loop.2

/-- C4: with a non-empty resolved file list and a successfully evaluated
chain, load with a (truthy) attribute name fails with the ImportError
naming the last-resolved attribute and all searched source files if and
only if the final namespace lacks that attribute; on success it returns
exactly the attribute's value on the final namespace. -/
theorem load_attribute_lookup (env : Env) (paths : List String) (ctx0 : Ctx)
    (group : Option String) (a : String) (files names : List String)
    (objs : List (Option String)) (final : Ctx) (o : String)
    (ha : a ≠ "")
    (hres : resolveAll env paths group (some a) = .ok (files, names, objs))
    (hne : files.isEmpty = false)
    (hfold : loadFold ctx0 (files.map (fileContents env)) = some final)
    (ho : objs.getLastD none = some o) :
    (load env paths ctx0 group (some a) = .error (.importErr o files)
      ↔ ctxGet final o = none) ∧
    ∀ w, ctxGet final o = some w →
      load env paths ctx0 group (some a) = .ok (.value w) := by
  unfold load
  rw [hres]
  dsimp only
  rw [hne]
  simp only [Bool.false_eq_true, if_false]
  rw [hfold]
  dsimp only
  rw [if_neg ha, ho]
  dsimp only
  cases hg : ctxGet final o with
  | some w => simp
  | none => simp

/-- C4 (witness): requesting the absent attribute `y` from a single file
defining only `x` raises the ImportError naming `y` and the searched file. -/
theorem load_attribute_lookup_witness :
    load envAttr ["f"] [] none (some "y") = .error (.importErr "y" ["f"]) :=
  (load_attribute_lookup envAttr ["f"] [] none "y" ["f"] ["user_config"]
    [some "y"] [("x", .int 4)] "y" (by decide) rfl rfl rfl rfl).1.mpr rfl

/-- C10: when a reference carries a `:attr` suffix but its suffix-stripped
name is not an existing file and matches a registered entry point, the
resolver returns the entry point's registered attribute when (truthily)
present and otherwise the caller-supplied default — the user-written suffix
is discarded. -/
theorem resolve_discards_suffix (env : Env)
    (epDict : List (String × EntryPoint)) (common : Option String)
    (path base suffix : String) (e : EntryPoint) (p : String)
    (hsplit : rsplitColon path = (base, some suffix))
    (hnf : isFile env base = false)
    (hep : alistGet epDict base = some e)
    (hmod : alistGet env.moduleFiles e.module = some p)
    (hpf : isFile env p = true) :
    resolveOne env epDict common path = .ok (p, e.module, epAttr e common) := by
  unfold resolveOne objectNameOf
  rw [hsplit]
  dsimp only
  rw [hnf]
  simp only [Bool.false_eq_true, if_false]
  rw [hep]
  dsimp only
  rw [hmod]
  dsimp only
  rw [hpf]
  simp

/-- C10 (witness): the reference `name-x:usersuffix` resolves through the
registry entry `name-x` (registered attribute `regattr`); the returned
attribute is `regattr`, not the user-written `usersuffix`. -/
theorem resolve_discards_suffix_witness :
    resolveOne envEp (epDictFor envEp (some "G")) (some "dflt")
      "name-x:usersuffix"
      = .ok ("fx", "mx", epAttr ⟨"mx", some "regattr"⟩ (some "dflt")) :=
  resolve_discards_suffix envEp (epDictFor envEp (some "G")) (some "dflt")
    "name-x:usersuffix" "name-x" "usersuffix" ⟨"mx", some "regattr"⟩ "fx"
    rfl rfl rfl rfl rfl

/-- C6 (counterexample): the claim fails as stated. After set("a.b.c", 5),
a subsequent set("a.b", 1) does NOT fail: only intermediate path segments
are checked for scalar/section conflicts, and the final segment is
assigned unconditionally, silently replacing the whole section `b`. -/
theorem setItem_section_overwrite_succeeds :
    setItem .nil "a.b.c" (.vInt 5) = .ok sectionTree ∧
    setItem sectionTree "a.b" (.vInt 1)
      = .ok (.cons "a" (.vTable (.cons "b" (.vInt 1) .nil)) .nil) :=
  ⟨rfl, rfl⟩

/-- C6 (amended): after set("a.b.c", 5), a subsequent set("a.b", v)
succeeds for every value v, replacing the section `b` (and the `c` below
it) by v; the replaced value is then what get("a.b") returns. -/
theorem setItem_section_overwrite (v : Toml) :
    setItem sectionTree "a.b" v
      = .ok (.cons "a" (.vTable (.cons "b" v .nil)) .nil) ∧
    getItem (.cons "a" (.vTable (.cons "b" v .nil)) .nil) "a.b" = some v :=
  ⟨rfl, rfl⟩

/-- C6 (witness): the amended behaviour at the concrete value 9. -/
theorem setItem_section_overwrite_witness :
    setItem sectionTree "a.b" (.vInt 9)
      = .ok (.cons "a" (.vTable (.cons "b" (.vInt 9) .nil)) .nil) ∧
    getItem (.cons "a" (.vTable (.cons "b" (.vInt 9) .nil)) .nil) "a.b"
      = some (.vInt 9) :=
  setItem_section_overwrite (.vInt 9)

/-- C7 helper: the dotted-set walk fails with the joined offending prefix
as soon as the descent meets a non-table strictly before the last
segment. -/
theorem setParts_conflict (n : Nat) :
    ∀ (d : TMap) (acc parts : List String) (v s : Toml),
      n + 1 < parts.length →
      lookupPath d (parts.take (n + 1)) = some s →
      isTable s = false →
      setParts d acc parts v = .error (acc ++ parts.take (n + 1)) := by
  induction n with
  | zero =>
    intro d acc parts v s hlen hpath hscalar
    match parts with
    | p :: q :: rest =>
      simp only [List.take_succ_cons, List.take_zero] at hpath ⊢
      simp only [lookupPath] at hpath
      simp only [setParts]
      rw [hpath]
      cases s with
      | vTable t => exact absurd hscalar (by simp [isTable])
      | vStr s' => rfl
      | vInt i => rfl
      | vBool b => rfl
      | vArr l => rfl
  | succ n ih =>
    intro d acc parts v s hlen hpath hscalar
    match parts with
    | p :: q :: rest =>
      simp only [List.take_succ_cons] at hpath ⊢
      simp only [lookupPath] at hpath
      cases hd : tmapGet d p with
      | none => rw [hd] at hpath; exact absurd hpath (by simp)
      | some w =>
        rw [hd] at hpath
        cases w with
        | vTable t =>
          dsimp only at hpath
          have hihp : lookupPath t ((q :: rest).take (n + 1)) = some s := by
            rw [List.take_succ_cons]
            exact hpath
          have hrec := ih t (acc ++ [p]) (q :: rest) v s
            (by simp only [List.length_cons] at hlen ⊢; omega) hihp hscalar
          simp only [setParts, hd]
          rw [hrec]
          simp [List.take_succ_cons]
        | vStr s' => exact absurd hpath (by simp)
        | vInt i => exact absurd hpath (by simp)
        | vBool b => exact absurd hpath (by simp)
        | vArr l => exact absurd hpath (by simp)

/-- C7: when the dotted path of a set passes through a prefix that
currently holds a scalar (a non-table reached strictly before the last
segment), the set fails with the section/scalar conflict error reporting
the offending path prefix (whose last element is the offending segment). -/
theorem setItem_scalar_conflict (d : TMap) (k : String) (v s : Toml) (n : Nat)
    (hdot : hasDot k = true)
    (hlen : n + 1 < (splitOnDot k).length)
    (hpath : lookupPath d ((splitOnDot k).take (n + 1)) = some s)
    (hscalar : isTable s = false) :
    setItem d k v = .error ((splitOnDot k).take (n + 1)) := by
  unfold setItem
  rw [if_pos hdot]
  simpa using setParts_conflict n d [] (splitOnDot k) v s hlen hpath hscalar

/-- C7 (witness): setting `a.b` when `a` holds the scalar 3 fails with the
conflict error reporting the offending segment `a`. -/
theorem setItem_scalar_conflict_witness :
    setItem (.cons "a" (.vInt 3) .nil) "a.b" (.vInt 1)
      = .error ((splitOnDot "a.b").take 1) :=
  setItem_scalar_conflict (.cons "a" (.vInt 3) .nil) "a.b" (.vInt 1)
    (.vInt 3) 0 rfl (by decide) rfl rfl

/-- C8: a key stored verbatim at top level is returned by the exact-match
check before any dotted splitting occurs — in general, and in particular
for a dotted key whose dotted split also addresses an existing nested
value (the verbatim key shadows the nested path, which the walk alone
would have resolved to a different value). -/
theorem getItem_exact_match_first :
    (∀ (d : TMap) (k : String) (v : Toml),
      tmapGet d k = some v → getItem d k = some v) ∧
    (tmapGet shadowTree "a.b" = some (.vInt 1) ∧
     getLoop shadowTree (splitOnDot "a.b") = some (.vInt 2) ∧
     getItem shadowTree "a.b" = some (.vInt 1)) := by
  refine ⟨fun d k v h => ?_, rfl, rfl, rfl⟩
  unfold getItem
  rw [h]

/-- C8 (witness): the exact-match rule applied to the shadowing store. -/
theorem getItem_exact_match_first_witness :
    getItem shadowTree "a.b" = some (.vInt 1) :=
  getItem_exact_match_first.1 shadowTree "a.b" (.vInt 1) rfl

/-- Every serialized value takes at least one token. -/
theorem dumpV_length_pos (t : Toml) : 1 ≤ (dumpV t).length := by
  cases t <;> simp [dumpV]

/-- Round trip of the value/array/table serializers against their parsers:
with enough fuel, parsing a dump (followed by anything) returns the
original tree and the leftover stream. -/
theorem parse_dump (fuel : Nat) :
    (∀ (t : Toml) (rest : List Tok), (dumpV t).length ≤ fuel →
      parseV fuel (dumpV t ++ rest) = some (t, rest)) ∧
    (∀ (l : TList) (rest : List Tok), (dumpL l).length + 1 ≤ fuel →
      parseL fuel (dumpL l ++ .arrEnd :: rest) = some (l, rest)) ∧
    (∀ (m : TMap) (rest : List Tok), (dumpT m).length + 1 ≤ fuel →
      parseT fuel (dumpT m ++ .tableEnd :: rest) = some (m, rest)) := by
  induction fuel with
  | zero =>
    refine ⟨fun t rest h => ?_, fun l rest h => ?_, fun m rest h => ?_⟩
    · exact absurd h (by have := dumpV_length_pos t; omega)
    · exact absurd h (by omega)
    · exact absurd h (by omega)
  | succ fuel ih =>
    refine ⟨fun t rest h => ?_, fun l rest h => ?_, fun m rest h => ?_⟩
    · cases t with
      | vStr s => simp [dumpV, parseV]
      | vInt i => simp [dumpV, parseV]
      | vBool b => simp [dumpV, parseV]
      | vArr l =>
        simp only [dumpV, List.cons_append, List.append_assoc,
          List.cons_append, List.nil_append] at h ⊢
        simp only [parseV]
        rw [ih.2.1 l rest (by simp [dumpV] at h; omega)]
      | vTable m =>
        simp only [dumpV, List.cons_append, List.append_assoc,
          List.cons_append, List.nil_append] at h ⊢
        simp only [parseV]
        rw [ih.2.2 m rest (by simp [dumpV] at h; omega)]
    · cases l with
      | nil => simp [dumpL, parseL]
      | cons v vs =>
        have h1 : (dumpV v).length ≤ fuel := by
          simp only [dumpL, List.length_append] at h
          have := dumpV_length_pos v
          omega
        have h2 : (dumpL vs).length + 1 ≤ fuel := by
          simp only [dumpL, List.length_append] at h
          have := dumpV_length_pos v
          omega
        have e1 := ih.1 v (dumpL vs ++ .arrEnd :: rest) h1
        have e2 := ih.2.1 vs rest h2
        simp only [dumpL, List.append_assoc]
        cases v <;> simp_all [dumpV, parseL, parseV]
    · cases m with
      | nil => simp [dumpT, parseT]
      | cons k v m' =>
        have h1 : (dumpV v).length ≤ fuel := by
          simp only [dumpT, List.length_cons, List.length_append] at h
          omega
        have h2 : (dumpT m').length + 1 ≤ fuel := by
          simp only [dumpT, List.length_cons, List.length_append] at h
          have := dumpV_length_pos v
          omega
        have e1 := ih.1 v (dumpT m' ++ .tableEnd :: rest) h1
        have e2 := ih.2.2 m' rest h2
        simp only [dumpT, List.cons_append, List.append_assoc]
        simp [parseT, e1, e2]

/-- Round trip of the top-level document serializer against its parser. -/
theorem parseTop_dump (fuel : Nat) :
    ∀ (m : TMap), (dumpT m).length + 1 ≤ fuel →
      parseTop fuel (dumpT m) = some m := by
  induction fuel with
  | zero => intro m h; exact absurd h (by omega)
  | succ fuel ih =>
    intro m h
    cases m with
    | nil => simp [dumpT, parseTop]
    | cons k v m' =>
      have h1 : (dumpV v).length ≤ fuel := by
        simp only [dumpT, List.length_cons, List.length_append] at h
        omega
      have h2 : (dumpT m').length + 1 ≤ fuel := by
        simp only [dumpT, List.length_cons, List.length_append] at h
        have := dumpV_length_pos v
        omega
      have e1 : parseV fuel (dumpV v ++ dumpT m') = some (v, dumpT m') :=
        (parse_dump fuel).1 v (dumpT m') h1
      simp only [dumpT, List.cons_append, parseTop]
      rw [e1]
      simp [ih m' h2]

/-- C9: writing the store and reading it back into a fresh store
reproduces the tree exactly, so every dotted key present before the write
still resolves to an equal value afterwards. -/
theorem store_write_read_roundtrip (d : TMap) (k : String) (v : Toml)
    (h : getItem d k = some v) :
    ∃ d', readStore (writeStore d) = some d' ∧ getItem d' k = some v := by
  refine ⟨d, ?_, h⟩
  unfold readStore writeStore
  exact parseTop_dump _ d (by omega)

/-- C9 (witness): the nested tree with a.b.c = 5 survives the write/read
round trip at the dotted key a.b.c. -/
theorem store_write_read_roundtrip_witness :
    ∃ d', readStore (writeStore sectionTree) = some d' ∧
      getItem d' "a.b.c" = some (.vInt 5) :=
  store_write_read_roundtrip sectionTree "a.b.c" (.vInt 5) rfl

end Clapper
